import Mathlib

/-!
Verification of the `claude-code-statusline` Python engine
(`src/engines/python/statusline.py`) against its natural-language
specification.  The program is shallowly embedded: strings are `List Char`
(Python strings are sequences of code points), Python floats are modelled
as exact rationals, Python `int` is `Int`, and Python `//` / `%` on
integers are `Int.fdiv` / `Int.fmod` (floor semantics).
-/

/-- Python strings are sequences of Unicode code points. -/
abbrev Str := List Char

/-- Decimal digit character, matching Python's rendering of digits. -/
def digitCh (n : Nat) : Char :=
  match n with
  | 0 => '0' | 1 => '1' | 2 => '2' | 3 => '3' | 4 => '4'
  | 5 => '5' | 6 => '6' | 7 => '7' | 8 => '8' | _ => '9'

/-- Decimal digits of `n` (most significant first); `fuel` bounds recursion. -/
def natDigits : Nat → Nat → Str
  | 0, _ => []
  | fuel + 1, n =>
    if n < 10 then [digitCh n]
    else natDigits fuel (n / 10) ++ [digitCh (n % 10)]

/-- Python `str(n)` for a natural number. -/
def natToStr (n : Nat) : Str := natDigits (n + 1) n

/-- Python `str(n)` for a Python int. -/
def intToStr (n : Int) : Str :=
  (if n < 0 then ['-'] else []) ++ natToStr n.natAbs

/-- Round the fraction `a / b` (with `b > 0`) half to even, the rounding
used by Python's `round` and by `format`'s fixed-point conversion on
exactly representable values. -/
def halfEvenRoundInt (a b : Int) : Int :=
  let f := a.fdiv b
  let r := a - f * b
  if 2 * r < b then f
  else if b < 2 * r then f + 1
  else if f % 2 = 0 then f else f + 1

/-- Python's `f"{q:.ndf}"` fixed-point formatting over exact rationals. -/
def fmtFixed (nd : Nat) (q : ℚ) : Str :=
  let m := halfEvenRoundInt (q.num * ((10 : Nat) ^ nd : Nat)) q.den
  let sign : Str := if q.num < 0 then ['-'] else []
  let a := m.natAbs
  if nd = 0 then sign ++ natToStr a
  else
    let frac := a % 10 ^ nd
    let fd := natDigits (frac + 1) frac
    sign ++ natToStr (a / 10 ^ nd) ++ '.' :: (List.replicate (nd - fd.length) '0' ++ fd)

/-- Exact division of a rational by a positive integer constant
(kernel-reducible counterpart of `q / (k : ℚ)`). -/
def qdivN (q : ℚ) (k : Nat) : ℚ := mkRat q.num (q.den * k)

/-- Function `fmt_k` from `statusline.py`: compact token-count formatting. -/
def fmt_k (n : Int) : Str :=
  if n ≥ 1000000 then fmtFixed 1 (mkRat n 1000000) ++ ['M']
  else if n ≥ 10000 then fmtFixed 0 (mkRat n 1000) ++ ['k']
  else if n ≥ 1000 then fmtFixed 1 (mkRat n 1000) ++ ['k']
  else intToStr n

/-- Function `fmt_cost` from `statusline.py`: compact currency formatting. -/
def fmt_cost (c : ℚ) : Str :=
  if c ≥ 1000 then '$' :: (fmtFixed 1 (qdivN c 1000) ++ ['k'])
  else if c ≥ 100 then '$' :: fmtFixed 0 c
  else if c ≥ 10 then '$' :: fmtFixed 0 c
  else if c ≥ 1 then '$' :: fmtFixed 1 c
  else '$' :: fmtFixed 2 c

/-- Dividing via `qdivN` agrees with rational division. -/
theorem qdivN_eq_div (q : ℚ) (k : Nat) : qdivN q k = q / (k : ℚ) := by
  rw [qdivN, Rat.mkRat_eq_div]
  push_cast
  rw [div_mul_eq_div_div, Rat.num_div_den]

/-- Building `mkRat` on an integer numerator agrees with rational division. -/
theorem mkRat_eq_div' (a : Int) (k : Nat) : mkRat a k = (a : ℚ) / (k : ℚ) := by
  rw [Rat.mkRat_eq_div]

/-- Claim C2: `fmt_cost` uses the documented bands — `≥1000` one decimal of
`c/1000` plus `k`, the `≥100` and `≥10` bands both integer dollars, `≥1` one
decimal, below `1` two decimals — and matches the boundary examples. -/
theorem fmt_cost_bands :
    (∀ c : ℚ, 0 ≤ c →
      (1000 ≤ c → fmt_cost c = '$' :: (fmtFixed 1 (c / 1000) ++ ['k'])) ∧
      (10 ≤ c → c < 1000 → fmt_cost c = '$' :: fmtFixed 0 c) ∧
      (1 ≤ c → c < 10 → fmt_cost c = '$' :: fmtFixed 1 c) ∧
      (c < 1 → fmt_cost c = '$' :: fmtFixed 2 c)) ∧
    fmt_cost 0 = "$0.00".data ∧ fmt_cost 1 = "$1.0".data ∧
    fmt_cost 10 = "$10".data ∧ fmt_cost 374 = "$374".data ∧
    fmt_cost 1000 = "$1.0k".data := by
  refine ⟨fun c _ => ⟨?_, ?_, ?_, ?_⟩,
    by decide, by decide, by decide, by decide, by decide⟩
  · intro h1
    rw [fmt_cost, if_pos h1, qdivN_eq_div]
    norm_num
  · intro h1 h2
    rw [fmt_cost]
    split_ifs <;> first | rfl | linarith
  · intro h1 h2
    rw [fmt_cost]
    split_ifs <;> first | rfl | linarith
  · intro h1
    rw [fmt_cost]
    split_ifs <;> first | rfl | linarith

/-- Witness for `fmt_cost_bands` at a concrete in-band input. -/
theorem fmt_cost_bands_witness : fmt_cost 374 = '$' :: fmtFixed 0 374 :=
  ((fmt_cost_bands.1 374 (by norm_num)).2.1) (by norm_num) (by norm_num)

/-- Claim C3: `fmt_k` uses the documented bands — `≥1000000` one decimal of
`n/1000000` plus `M`, `≥10000` zero decimals of `n/1000` plus `k`, `≥1000`
one decimal of `n/1000` plus `k`, below `1000` the integer itself — and
matches the boundary values. -/
theorem fmt_k_bands :
    (∀ n : Int, 0 ≤ n →
      (1000000 ≤ n → fmt_k n = fmtFixed 1 ((n : ℚ) / 1000000) ++ ['M']) ∧
      (10000 ≤ n → n < 1000000 → fmt_k n = fmtFixed 0 ((n : ℚ) / 1000) ++ ['k']) ∧
      (1000 ≤ n → n < 10000 → fmt_k n = fmtFixed 1 ((n : ℚ) / 1000) ++ ['k']) ∧
      (n < 1000 → fmt_k n = intToStr n)) ∧
    fmt_k 999 = "999".data ∧ fmt_k 1000 = "1.0k".data ∧ fmt_k 9999 = "10.0k".data ∧
    fmt_k 10000 = "10k".data ∧ fmt_k 1000000 = "1.0M".data := by
  refine ⟨fun n _ => ⟨?_, ?_, ?_, ?_⟩,
    by decide, by decide, by decide, by decide, by decide⟩
  · intro h1
    rw [fmt_k, if_pos h1, mkRat_eq_div']
    norm_num
  · intro h1 h2
    rw [fmt_k, if_neg (by omega), if_pos h1, mkRat_eq_div']
    norm_num
  · intro h1 h2
    rw [fmt_k, if_neg (by omega), if_neg (by omega), if_pos h1, mkRat_eq_div']
    norm_num
  · intro h1
    rw [fmt_k, if_neg (by omega), if_neg (by omega), if_neg (by omega)]

/-- Witness for `fmt_k_bands` at a concrete in-band input. -/
theorem fmt_k_bands_witness : fmt_k 45231 = fmtFixed 0 ((45231 : ℚ) / 1000) ++ ['k'] :=
  ((fmt_k_bands.1 45231 (by norm_num)).2.1) (by norm_num) (by norm_num)

/-- The eight block-height glyphs from `statusline.py`. -/
def BARS : List Str :=
  ["▁".data, "▂".data, "▃".data, "▄".data, "▅".data, "▆".data, "▇".data, "█".data]

/-- Function `bar_char` from `statusline.py`: bar glyph proportional to `val/max_val`. -/
def bar_char (val max_val : Int) : Str :=
  if val ≤ 0 ∨ max_val ≤ 0 then []
  else
    let level := (val * 8 + max_val.fdiv 2).fdiv max_val
    let lvl := max 1 (min 8 level)
    BARS.getD (lvl - 1).toNat []

/-- Conventional round-half-up of the fraction `a / m` (ties go up):
`⌊a/m + 1/2⌋` computed as an integer floor division. -/
def roundHalfUp (a m : Int) : Int := (2 * a + m).fdiv (2 * m)

/-- Adding half the denominator before floor division implements
round-half-up, for every parity of the denominator. -/
theorem add_half_div_eq (a m : ℕ) (hm : 0 < m) :
    (a + m / 2) / m = (2 * a + m) / (2 * m) := by
  rcases Nat.even_or_odd m with ⟨k, hk⟩ | ⟨k, hk⟩
  · subst hk
    have hk0 : 0 < k := by omega
    have h2 : (k + k) / 2 = k := by omega
    rw [h2]
    have e1 : 2 * a + (k + k) = 2 * (a + k) := by ring
    have e2 : 2 * (k + k) = 2 * (k + k) := rfl
    rw [e1]
    have := Nat.mul_div_mul_left (a + k) (k + k) (show 0 < 2 by norm_num)
    omega
  · subst hk
    have h2 : (2 * k + 1) / 2 = k := by omega
    rw [h2]
    have hqr := Nat.div_add_mod (a + k) (2 * k + 1)
    have hr : (a + k) % (2 * k + 1) < 2 * k + 1 := Nat.mod_lt _ (by omega)
    symm
    apply Nat.div_eq_of_lt_le
    · have e : (a + k) / (2 * k + 1) * (2 * (2 * k + 1)) =
          2 * ((2 * k + 1) * ((a + k) / (2 * k + 1))) := by ring
      rw [e]
      omega
    · have e : ((a + k) / (2 * k + 1) + 1) * (2 * (2 * k + 1)) =
          2 * ((2 * k + 1) * ((a + k) / (2 * k + 1))) + (4 * k + 2) := by ring
      rw [e]
      omega

/-- The integer-level identity lifted to `Int.fdiv` for positive arguments. -/
theorem fdiv_level_eq (v m : Int) (hv : 0 < v) (hm : 0 < m) :
    (v * 8 + m.fdiv 2).fdiv m = roundHalfUp (v * 8) m := by
  obtain ⟨a, rfl⟩ := Int.eq_ofNat_of_zero_le hv.le
  obtain ⟨b, rfl⟩ := Int.eq_ofNat_of_zero_le hm.le
  have hb : 0 < b := by exact_mod_cast hm
  have e1 : ((a : Int) * 8 + ((b : Int)).fdiv 2) = ((a * 8 + b / 2 : ℕ) : Int) := by
    rw [show ((2 : Int)) = ((2 : ℕ) : Int) from rfl, ← Int.ofNat_fdiv]
    push_cast
    ring
  have e2 : (2 * ((a : Int) * 8) + (b : Int)) = ((2 * (a * 8) + b : ℕ) : Int) := by
    push_cast; ring
  have e3 : (2 * (b : Int)) = ((2 * b : ℕ) : Int) := by push_cast; ring
  rw [roundHalfUp, e1, e2, e3, ← Int.ofNat_fdiv, ← Int.ofNat_fdiv]
  exact_mod_cast add_half_div_eq (a * 8) b hb

/-- Claim C4: `bar_char` returns the empty string when either argument is
non-positive, and otherwise the glyph at level `round_half_up(val*8/max)`
clamped to 1–8. -/
theorem bar_char_spec : ∀ val max_val : Int,
    (val ≤ 0 ∨ max_val ≤ 0 → bar_char val max_val = []) ∧
    (0 < val → 0 < max_val →
      bar_char val max_val =
        BARS.getD (max 1 (min 8 (roundHalfUp (val * 8) max_val)) - 1).toNat []) := by
  intro val max_val
  constructor
  · intro h
    rw [bar_char, if_pos h]
  · intro hv hm
    rw [bar_char, if_neg (by push_neg; exact ⟨hv, hm⟩)]
    rw [fdiv_level_eq val max_val hv hm]

/-- Witness for `bar_char_spec`: both the non-positive guard and the
positive path at concrete inputs. -/
theorem bar_char_spec_witness :
    bar_char 0 5 = [] ∧ bar_char 3 4 = "▆".data := by
  constructor
  · exact (bar_char_spec 0 5).1 (Or.inl (by norm_num))
  · rw [(bar_char_spec 3 4).2 (by norm_num) (by norm_num)]
    decide

/-- The prefix→icon table from `shorten_branch`, in declaration order
(Python dicts iterate in insertion order). -/
def BRANCH_PREFIX_TABLE : List (Str × Char) :=
  [("feature/".data, '★'), ("feat/".data, '★'), ("fix/".data, '✦'),
   ("chore/".data, '⚙'), ("refactor/".data, '↻'), ("docs/".data, '§')]

/-- The prefix-scanning loop of `shorten_branch`. -/
def shortenScan : List (Str × Char) → Str → Str
  | [], name => name
  | (p, icon) :: rest, name =>
    if p.isPrefixOf name then icon :: name.drop p.length
    else shortenScan rest name

/-- Function `shorten_branch` from `statusline.py`. -/
def shorten_branch (name : Str) : Str := shortenScan BRANCH_PREFIX_TABLE name

/-- The scan leaves a name alone when no table entry matches. -/
theorem shortenScan_no_match : ∀ (L : List (Str × Char)) (name : Str),
    (∀ pi ∈ L, ¬ pi.1.isPrefixOf name = true) → shortenScan L name = name := by
  intro L
  induction L with
  | nil => intro name _; rfl
  | cons hd tl ih =>
    intro name h
    obtain ⟨p, icon⟩ := hd
    rw [shortenScan]
    rw [if_neg (h (p, icon) (List.mem_cons_self _ _))]
    exact ih name fun pi hpi => h pi (List.mem_cons_of_mem _ hpi)

/-- The scan applies the first matching table entry. -/
theorem shortenScan_first : ∀ (L : List (Str × Char)) (name : Str) (i : Nat)
    (h : i < L.length),
    (L.get ⟨i, h⟩).1.isPrefixOf name = true →
    (∀ j (hj : j < i), ¬ (L.get ⟨j, hj.trans h⟩).1.isPrefixOf name = true) →
    shortenScan L name = (L.get ⟨i, h⟩).2 :: name.drop (L.get ⟨i, h⟩).1.length := by
  intro L
  induction L with
  | nil => intro name i h; exact absurd h (by simp)
  | cons hd tl ih =>
    intro name i h hmatch hfirst
    obtain ⟨p, icon⟩ := hd
    match i with
    | 0 =>
      rw [shortenScan]
      simp only [List.get] at hmatch ⊢
      rw [if_pos hmatch]
    | Nat.succ i' =>
      rw [shortenScan]
      have h0 : ¬ p.isPrefixOf name = true := by
        have := hfirst 0 (Nat.succ_pos i')
        simpa using this
      rw [if_neg h0]
      have h' : i' < tl.length := by simpa using Nat.lt_of_succ_lt_succ h
      have := ih name i' h' (by simpa using hmatch)
        (fun j hj => by
          have := hfirst (j + 1) (Nat.succ_lt_succ hj)
          simpa using this)
      simpa using this

/-- Claim C5: `shorten_branch` leaves a name without any recognized prefix
unchanged (hence is idempotent on such names), and replaces exactly the
first matching prefix in declaration order with its glyph, keeping the
rest of the name. -/
theorem shorten_branch_spec : ∀ name : Str,
    ((∀ pi ∈ BRANCH_PREFIX_TABLE, ¬ pi.1.isPrefixOf name = true) →
      shorten_branch name = name ∧
      shorten_branch (shorten_branch name) = shorten_branch name) ∧
    (∀ i (h : i < BRANCH_PREFIX_TABLE.length),
      (BRANCH_PREFIX_TABLE.get ⟨i, h⟩).1.isPrefixOf name = true →
      (∀ j (hj : j < i),
        ¬ (BRANCH_PREFIX_TABLE.get ⟨j, hj.trans h⟩).1.isPrefixOf name = true) →
      shorten_branch name =
        (BRANCH_PREFIX_TABLE.get ⟨i, h⟩).2 ::
          name.drop (BRANCH_PREFIX_TABLE.get ⟨i, h⟩).1.length) := by
  intro name
  constructor
  · intro h
    have h1 : shorten_branch name = name := shortenScan_no_match _ name h
    exact ⟨h1, by rw [h1, h1]⟩
  · intro i h hmatch hfirst
    exact shortenScan_first _ name i h hmatch hfirst

/-- Witness for `shorten_branch_spec`: the spec's three examples
(`feature/login`, `fix/crash`, `main`). -/
theorem shorten_branch_spec_witness :
    shorten_branch "main".data = "main".data ∧
    shorten_branch "feature/login".data = '★' :: "login".data ∧
    shorten_branch "fix/crash".data = '✦' :: "crash".data := by
  refine ⟨((shorten_branch_spec "main".data).1 (by decide)).1, ?_, ?_⟩
  · have := (shorten_branch_spec "feature/login".data).2 0 (by decide)
      (by decide) (fun j hj => by omega)
    rw [this]
    decide
  · have := (shorten_branch_spec "fix/crash".data).2 2 (by decide)
      (by decide) (fun j hj => by
        rcases (show j = 0 ∨ j = 1 by omega) with rfl | rfl
        · exact (by decide : ¬ List.isPrefixOf ("feature/".data) ("fix/crash".data) = true)
        · exact (by decide : ¬ List.isPrefixOf ("feat/".data) ("fix/crash".data) = true))
    rw [this]
    decide

/-- MD5 per-round additive constants (RFC 1321). -/
def MD5K : List Nat :=
  [0xd76aa478, 0xe8c7b756, 0x242070db, 0xc1bdceee, 0xf57c0faf, 0x4787c62a,
   0xa8304613, 0xfd469501, 0x698098d8, 0x8b44f7af, 0xffff5bb1, 0x895cd7be,
   0x6b901122, 0xfd987193, 0xa679438e, 0x49b40821, 0xf61e2562, 0xc040b340,
   0x265e5a51, 0xe9b6c7aa, 0xd62f105d, 0x02441453, 0xd8a1e681, 0xe7d3fbc8,
   0x21e1cde6, 0xc33707d6, 0xf4d50d87, 0x455a14ed, 0xa9e3e905, 0xfcefa3f8,
   0x676f02d9, 0x8d2a4c8a, 0xfffa3942, 0x8771f681, 0x6d9d6122, 0xfde5380c,
   0xa4beea44, 0x4bdecfa9, 0xf6bb4b60, 0xbebfbc70, 0x289b7ec6, 0xeaa127fa,
   0xd4ef3085, 0x04881d05, 0xd9d4d039, 0xe6db99e5, 0x1fa27cf8, 0xc4ac5665,
   0xf4292244, 0x432aff97, 0xab9423a7, 0xfc93a039, 0x655b59c3, 0x8f0ccc92,
   0xffeff47d, 0x85845dd1, 0x6fa87e4f, 0xfe2ce6e0, 0xa3014314, 0x4e0811a1,
   0xf7537e82, 0xbd3af235, 0x2ad7d2bb, 0xeb86d391]

/-- MD5 per-round left-rotation amounts (RFC 1321). -/
def MD5S : List Nat :=
  [7, 12, 17, 22, 7, 12, 17, 22, 7, 12, 17, 22, 7, 12, 17, 22,
   5, 9, 14, 20, 5, 9, 14, 20, 5, 9, 14, 20, 5, 9, 14, 20,
   4, 11, 16, 23, 4, 11, 16, 23, 4, 11, 16, 23, 4, 11, 16, 23,
   6, 10, 15, 21, 6, 10, 15, 21, 6, 10, 15, 21, 6, 10, 15, 21]

/-- Complement of a 32-bit machine word modelled as `Nat`. -/
def wnot (a : Nat) : Nat := 4294967295 - a % 4294967296

/-- Left rotation of a 32-bit word. -/
def rotl32 (x s : Nat) : Nat := ((x <<< s) ||| (x >>> (32 - s))) % 4294967296

/-- Eight little-endian bytes of a 64-bit length, low byte first. -/
def leBytes : Nat → Nat → List Nat
  | 0, _ => []
  | k + 1, n => n % 256 :: leBytes k (n / 256)

/-- Group bytes four at a time into little-endian 32-bit words. -/
def leWords : List Nat → List Nat
  | a :: b :: c :: d :: rest =>
    (a + 256 * b + 65536 * c + 16777216 * d) :: leWords rest
  | _ => []

/-- Split a byte list into 64-byte blocks; `fuel` bounds recursion. -/
def chunks64 : Nat → List Nat → List (List Nat)
  | _, [] => []
  | 0, l => [l]
  | fuel + 1, l => l.take 64 :: chunks64 fuel (l.drop 64)

/-- MD5 message padding: `0x80`, zeros to 56 mod 64, then the bit length
as eight little-endian bytes. -/
def md5pad (msg : List Nat) : List Nat :=
  let len := msg.length
  let zeros := (120 - (len + 1) % 64) % 64
  msg ++ 128 :: (List.replicate zeros 0 ++ leBytes 8 ((8 * len) % 18446744073709551616))

/-- One MD5 operation (round `i` of 64) on state `(a, b, c, d)`. -/
def md5Round (M : List Nat) (st : Nat × Nat × Nat × Nat) (i : Nat) :
    Nat × Nat × Nat × Nat :=
  let a := st.1
  let b := st.2.1
  let c := st.2.2.1
  let d := st.2.2.2
  let fg : Nat × Nat :=
    if i < 16 then ((b &&& c) ||| (wnot b &&& d), i)
    else if i < 32 then ((d &&& b) ||| (wnot d &&& c), (5 * i + 1) % 16)
    else if i < 48 then (b ^^^ c ^^^ d, (3 * i + 5) % 16)
    else (c ^^^ (b ||| wnot d), (7 * i) % 16)
  let f := (fg.1 + a + MD5K.getD i 0 + M.getD fg.2 0) % 4294967296
  (d, (b + rotl32 f (MD5S.getD i 0)) % 4294967296, b, c)

/-- Process one 16-word MD5 block. -/
def md5Block (st : Nat × Nat × Nat × Nat) (M : List Nat) :
    Nat × Nat × Nat × Nat :=
  let r := (List.range 64).foldl (md5Round M) st
  ((st.1 + r.1) % 4294967296, (st.2.1 + r.2.1) % 4294967296,
   (st.2.2.1 + r.2.2.1) % 4294967296, (st.2.2.2 + r.2.2.2) % 4294967296)

/-- MD5 digest (16 bytes) of a byte message. -/
def md5bytes (msg : List Nat) : List Nat :=
  let padded := md5pad msg
  let blocks := (chunks64 padded.length padded).map leWords
  let r := blocks.foldl md5Block (1732584193, 4023233417, 2562383102, 271733878)
  leBytes 4 r.1 ++ leBytes 4 r.2.1 ++ leBytes 4 r.2.2.1 ++ leBytes 4 r.2.2.2

/-- Lower-case hexadecimal digit character. -/
def hexCh (n : Nat) : Char :=
  match n with
  | 0 => '0' | 1 => '1' | 2 => '2' | 3 => '3' | 4 => '4' | 5 => '5'
  | 6 => '6' | 7 => '7' | 8 => '8' | 9 => '9' | 10 => 'a' | 11 => 'b'
  | 12 => 'c' | 13 => 'd' | 14 => 'e' | _ => 'f'

/-- Python `hashlib.md5(...).hexdigest()`: lower-case hex digest string. -/
def md5hex (msg : List Nat) : Str :=
  (md5bytes msg).foldr (fun b acc => hexCh (b / 16) :: hexCh (b % 16) :: acc) []

/-- UTF-8 encoding of one code point. -/
def utf8Cp (c : Nat) : List Nat :=
  if c < 128 then [c]
  else if c < 2048 then [192 + c / 64, 128 + c % 64]
  else if c < 65536 then [224 + c / 4096, 128 + c / 64 % 64, 128 + c % 64]
  else [240 + c / 262144, 128 + c / 4096 % 64, 128 + c / 64 % 64, 128 + c % 64]

/-- Python's `str.encode()`: UTF-8 bytes of a string. -/
def utf8Bytes (s : Str) : List Nat :=
  s.foldr (fun c acc => utf8Cp c.toNat ++ acc) []

/-- The project-directory slug from `main`:
`project_dir.lstrip("/").replace("/", "-")`. -/
def pySlugOf (project_dir : Str) : Str :=
  (project_dir.dropWhile (fun c => c = '/')).map (fun c => if c = '/' then '-' else c)

/-- The per-project cumulative cache filename computed by `main`:
`proj-` + first 8 hex digits of `md5(slug + "\n")` + `.json`. -/
def proj_cache_filename (project_dir : Str) : Str :=
  "proj-".data ++ (md5hex (utf8Bytes (pySlugOf project_dir ++ ['\n']))).take 8
    ++ ".json".data

/-- The filename as described by the claim, which hashes the project path
itself (plus trailing newline) rather than the slug. -/
def proj_cache_filename_claimed (project_dir : Str) : Str :=
  "proj-".data ++ (md5hex (utf8Bytes (project_dir ++ ['\n']))).take 8
    ++ ".json".data

/-- Claim C6 counterexample: at `/home/user` the code hashes the slug
`home-user\n`, not the path `/home/user\n`, and the two filenames differ. -/
theorem proj_cache_filename_counterexample :
    proj_cache_filename ("/home/user".data) ≠
      proj_cache_filename_claimed ("/home/user".data) := by
  set_option maxRecDepth 8000 in decide

/-- Claim C6 amended: the hashed input is the slug (leading slashes
stripped, inner slashes replaced by dashes) with a trailing newline; the
filename is `proj-` plus the first 8 hex digits plus `.json`; it is
invariant under extra leading slashes and concretely
`proj-651a2c20.json` for `/home/user`. -/
theorem proj_cache_filename_amended :
    (∀ pd : Str, proj_cache_filename pd =
      "proj-".data ++ (md5hex (utf8Bytes (pySlugOf pd ++ ['\n']))).take 8
        ++ ".json".data) ∧
    (∀ pd : Str, proj_cache_filename ('/' :: pd) = proj_cache_filename pd) ∧
    proj_cache_filename ("/home/user".data) = "proj-651a2c20.json".data := by
  refine ⟨fun pd => rfl, fun pd => ?_, by set_option maxRecDepth 8000 in decide⟩
  have h : pySlugOf ('/' :: pd) = pySlugOf pd := by
    rw [pySlugOf, pySlugOf, List.dropWhile_cons_of_pos]
    rfl
  rw [proj_cache_filename, proj_cache_filename, h]

/-- Python `os.path.basename`: the part of a path after the last slash. -/
def pyBasename (p : Str) : Str :=
  (p.reverse.takeWhile (fun c => c ≠ '/')).reverse

/-- The scanning loop of Python's `str.replace` (all non-overlapping
occurrences, left to right); `fuel` bounds recursion. -/
def pyReplaceScan (pat : Str) : Nat → Str → Str
  | 0, s => s
  | _ + 1, [] => []
  | fuel + 1, c :: rest =>
    if pat.isPrefixOf (c :: rest) then
      pyReplaceScan pat fuel ((c :: rest).drop pat.length)
    else c :: pyReplaceScan pat fuel rest

/-- Python's `s.replace(pat, "")` for a non-empty pattern. -/
def pyReplaceAll (pat s : Str) : Str := pyReplaceScan pat s.length s

/-- The session identifier computed by `main`:
`os.path.basename(transcript_path).replace(".jsonl", "")` when the
transcript path is non-empty, else the empty string. -/
def session_id_of (transcript_path : Str) : Str :=
  if transcript_path = [] then []
  else pyReplaceAll (".jsonl".data) (pyBasename transcript_path)

/-- Strip the file extension (everything from the last dot) from a name,
leaving dotless names unchanged. -/
def stripLastExt (b : Str) : Str :=
  if '.' ∈ b then ((b.reverse.dropWhile (fun c => c ≠ '.')).drop 1).reverse else b

/-- The session identifier as described by the claim: the transcript's
base name with its file extension stripped. -/
def session_id_claimed (p : Str) : Str :=
  if p = [] then [] else stripLastExt (pyBasename p)

/-- Claim C7 counterexample: for a transcript `/tmp/notes.txt` the code
keeps the base name `notes.txt` unchanged (it only removes the literal
`.jsonl`), while the claim's extension-stripping yields `notes`. -/
theorem session_id_counterexample :
    session_id_of ("/tmp/notes.txt".data) ≠ session_id_claimed ("/tmp/notes.txt".data) ∧
    session_id_of ("/tmp/notes.txt".data) = "notes.txt".data ∧
    session_id_claimed ("/tmp/notes.txt".data) = "notes".data := by
  decide

/-- Taking with `takeWhile` runs through a satisfying block and stops at a failure. -/
theorem takeWhile_append_stop (p : Char → Bool) :
    ∀ (l₁ : Str) (x : Char) (l₂ : Str), (∀ c ∈ l₁, p c = true) → p x = false →
    List.takeWhile p (l₁ ++ x :: l₂) = l₁ := by
  intro l₁
  induction l₁ with
  | nil =>
    intro x l₂ _ hx
    simp [List.takeWhile_cons, hx]
  | cons c l ih =>
    intro x l₂ h hx
    have hc : p c = true := h c (List.mem_cons_self _ _)
    simp only [List.cons_append, List.takeWhile_cons, hc, if_true]
    rw [ih x l₂ (fun d hd => h d (List.mem_cons_of_mem _ hd)) hx]

/-- Dropping with `dropWhile` runs through a satisfying block and stops at a failure. -/
theorem dropWhile_append_stop (p : Char → Bool) :
    ∀ (l₁ : Str) (x : Char) (l₂ : Str), (∀ c ∈ l₁, p c = true) → p x = false →
    List.dropWhile p (l₁ ++ x :: l₂) = x :: l₂ := by
  intro l₁
  induction l₁ with
  | nil =>
    intro x l₂ _ hx
    simp [List.dropWhile_cons, hx]
  | cons c l ih =>
    intro x l₂ h hx
    have hc : p c = true := h c (List.mem_cons_self _ _)
    simp only [List.cons_append, List.dropWhile_cons, hc, if_true]
    exact ih x l₂ (fun d hd => h d (List.mem_cons_of_mem _ hd)) hx

/-- The base name of `dir ++ "/" ++ name` is `name` when `name` has no
slash. -/
theorem pyBasename_append (dir name : Str) (h : '/' ∉ name) :
    pyBasename (dir ++ '/' :: name) = name := by
  rw [pyBasename, List.reverse_append, List.reverse_cons, List.append_assoc,
    List.singleton_append]
  rw [takeWhile_append_stop _ name.reverse '/' dir.reverse
    (fun c hc => by
      have hmem : c ∈ name := List.mem_reverse.mp hc
      have hne : c ≠ '/' := fun he => h (he ▸ hmem)
      simpa using hne)
    (by simp)]
  exact List.reverse_reverse name

/-- Removing all occurrences of `.jsonl` from `stem ++ ".jsonl"` yields
`stem` when the stem contains no dot. -/
theorem replace_strips_jsonl : ∀ stem : Str, '.' ∉ stem →
    pyReplaceAll (".jsonl".data) (stem ++ ".jsonl".data) = stem := by
  intro stem
  induction stem with
  | nil => intro _; decide
  | cons c rest ih =>
    intro h
    have hc : c ≠ '.' := fun he => h (he ▸ List.mem_cons_self _ _)
    have hrest : '.' ∉ rest := fun hm => h (List.mem_cons_of_mem _ hm)
    rw [pyReplaceAll] at ih ⊢
    simp only [List.cons_append, List.length_cons]
    rw [pyReplaceScan]
    have hpre : (".jsonl".data).isPrefixOf (c :: (rest ++ ".jsonl".data)) = false := by
      have hb : ('.' == c) = false := beq_eq_false_iff_ne.mpr (fun he => hc he.symm)
      show (('.' == c) && _) = false
      rw [hb, Bool.false_and]
    rw [if_neg (by rw [hpre]; exact Bool.false_ne_true)]
    simp only [List.length_append] at ih ⊢
    rw [ih hrest]

/-- Claim C7 amended: the session id is the base name with every
occurrence of the literal `.jsonl` removed; in particular, for the
standard transcript layout `dir/<stem>.jsonl` with a dotless, slashless
stem it equals the stem, agreeing there with the claim's
extension-stripping description. -/
theorem session_id_amended :
    (∀ p : Str, p ≠ [] →
      session_id_of p = pyReplaceAll (".jsonl".data) (pyBasename p)) ∧
    (∀ dir stem : Str, '.' ∉ stem → '/' ∉ stem →
      session_id_of (dir ++ '/' :: (stem ++ ".jsonl".data)) = stem ∧
      session_id_claimed (dir ++ '/' :: (stem ++ ".jsonl".data)) = stem) := by
  constructor
  · intro p hp
    rw [session_id_of, if_neg hp]
  · intro dir stem hdot hslash
    have hpath : dir ++ '/' :: (stem ++ ".jsonl".data) ≠ [] := by
      intro he
      have := congrArg List.length he
      simp at this
    have hnoslash : '/' ∉ stem ++ ".jsonl".data := by
      intro hm
      rcases List.mem_append.mp hm with h1 | h1
      · exact hslash h1
      · simp at h1
    have hb : pyBasename (dir ++ '/' :: (stem ++ ".jsonl".data)) =
        stem ++ ".jsonl".data := pyBasename_append _ _ hnoslash
    constructor
    · rw [session_id_of, if_neg hpath, hb]
      exact replace_strips_jsonl stem hdot
    · rw [session_id_claimed, if_neg hpath, hb, stripLastExt,
        if_pos (List.mem_append.mpr (Or.inr (by decide)))]
      rw [List.reverse_append]
      rw [show (".jsonl".data).reverse = ('l' :: 'n' :: 'o' :: 's' :: 'j' :: '.' :: []) from rfl]
      rw [show ('l' :: 'n' :: 'o' :: 's' :: 'j' :: '.' :: []) ++ stem.reverse =
        ('l' :: 'n' :: 'o' :: 's' :: 'j' :: []) ++ '.' :: stem.reverse from rfl]
      rw [dropWhile_append_stop _ ('l' :: 'n' :: 'o' :: 's' :: 'j' :: []) '.'
        stem.reverse (by decide) (by simp)]
      simp

/-- Witness for `session_id_amended` at concrete paths. -/
theorem session_id_amended_witness :
    session_id_of ("/t/abc.jsonl".data) =
      pyReplaceAll (".jsonl".data) (pyBasename ("/t/abc.jsonl".data)) ∧
    session_id_of ("/t".data ++ '/' :: ("abc".data ++ ".jsonl".data)) = "abc".data ∧
    session_id_claimed ("/t".data ++ '/' :: ("abc".data ++ ".jsonl".data)) = "abc".data := by
  refine ⟨session_id_amended.1 ("/t/abc.jsonl".data) (by decide), ?_, ?_⟩
  · exact (session_id_amended.2 ("/t".data) ("abc".data) (by decide) (by decide)).1
  · exact (session_id_amended.2 ("/t".data) ("abc".data) (by decide) (by decide)).2

/-- The eleven feature keys from `load_config`. -/
def CONFIG_KEYS : List Str :=
  ["STATUSLINE_SHOW_MODEL".data, "STATUSLINE_SHOW_MODEL_BARS".data,
   "STATUSLINE_SHOW_CONTEXT".data, "STATUSLINE_SHOW_COST".data,
   "STATUSLINE_SHOW_DURATION".data, "STATUSLINE_SHOW_GIT".data,
   "STATUSLINE_SHOW_DIFF".data, "STATUSLINE_LINE2".data,
   "STATUSLINE_SHOW_TOKENS".data, "STATUSLINE_SHOW_SPEED".data,
   "STATUSLINE_SHOW_CUMULATIVE".data]

/-- Python's `str.strip()`: remove leading and trailing whitespace. -/
def pyStrip (s : Str) : Str :=
  ((s.dropWhile Char.isWhitespace).reverse.dropWhile Char.isWhitespace).reverse

/-- The config-file parsing loop of `load_config`: `KEY=value` lines,
blank and `#` lines skipped, later assignments to a key winning. -/
def parseCfgLines (lines : List Str) : Str → Option Str :=
  lines.foldl
    (fun d line =>
      let l := pyStrip line
      if l = [] ∨ ['#'].isPrefixOf l then d
      else if '=' ∈ l then
        let k := pyStrip (l.takeWhile (fun c => c ≠ '='))
        let v := pyStrip ((l.dropWhile (fun c => c ≠ '=')).drop 1)
        fun q => if q = k then some v else d q
      else d)
    (fun _ => none)

/-- The thirteen CLI switches accepted by `parse_args`. -/
structure CliArgs where
  no_model : Bool
  no_model_bars : Bool
  no_context : Bool
  no_cost : Bool
  no_duration : Bool
  no_git : Bool
  no_diff : Bool
  no_line2 : Bool
  no_tokens : Bool
  no_speed : Bool
  no_cumulative : Bool
  no_color : Bool
  help : Bool

/-- The CLI-flag→feature-key mapping of `load_config` (the flag's presence
disables the key). -/
def cliDisables (args : CliArgs) (k : Str) : Bool :=
  if k = "STATUSLINE_SHOW_MODEL".data then args.no_model
  else if k = "STATUSLINE_SHOW_MODEL_BARS".data then args.no_model_bars
  else if k = "STATUSLINE_SHOW_CONTEXT".data then args.no_context
  else if k = "STATUSLINE_SHOW_COST".data then args.no_cost
  else if k = "STATUSLINE_SHOW_DURATION".data then args.no_duration
  else if k = "STATUSLINE_SHOW_GIT".data then args.no_git
  else if k = "STATUSLINE_SHOW_DIFF".data then args.no_diff
  else if k = "STATUSLINE_LINE2".data then args.no_line2
  else if k = "STATUSLINE_SHOW_TOKENS".data then args.no_tokens
  else if k = "STATUSLINE_SHOW_SPEED".data then args.no_speed
  else if k = "STATUSLINE_SHOW_CUMULATIVE".data then args.no_cumulative
  else false

/-- The effective configuration: feature-key map plus the color switch. -/
structure Config where
  flags : Str → Bool
  no_color : Bool

/-- Function `load_config` from `statusline.py`: defaults < config file <
environment < CLI flags, with `false`-literal comparison for file and
environment values and unconditional disabling for CLI flags; `show()`
returns `true` for keys outside the map. -/
def load_config (fileExists : Bool) (lines : List Str)
    (envv : Str → Option Str) (args : CliArgs) : Config :=
  let file_vals : Str → Option Str :=
    if fileExists then parseCfgLines lines else fun _ => none
  let baseVal : Str → Bool := fun k =>
    let v0 := (file_vals k).getD ("true".data)
    let v := match envv k with | some e => e | none => v0
    if v = "false".data then false else true
  { flags := fun k =>
      if k ∈ CONFIG_KEYS then
        (if cliDisables args k then false else baseVal k)
      else true
    no_color := args.no_color
      || (match envv ("NO_COLOR".data) with | some v => !(v = []) | none => false)
      || (match envv ("STATUSLINE_NO_COLOR".data) with | some v => !(v = []) | none => false) }

/-- Claim C1: for every feature key the effective value is the last-write
overlay — CLI disable flag wins unconditionally, otherwise an environment
value under the `false`-literal rule, otherwise the config-file value
under the same rule, otherwise the enabled default. -/
theorem config_precedence :
    ∀ (fe : Bool) (lines : List Str) (envv : Str → Option Str)
      (args : CliArgs) (k : Str), k ∈ CONFIG_KEYS →
    ((load_config fe lines envv args).flags k =
      (if cliDisables args k then false
       else
         match envv k with
         | some v => if v = "false".data then false else true
         | none =>
           match (if fe then parseCfgLines lines k else none) with
           | some v => if v = "false".data then false else true
           | none => true)) ∧
    (cliDisables args k = true → (load_config fe lines envv args).flags k = false) := by
  intro fe lines envv args k hk
  have hflag : (load_config fe lines envv args).flags k =
      (if k ∈ CONFIG_KEYS then
        (if cliDisables args k then false
         else
           let v0 := ((if fe then parseCfgLines lines else fun _ => none) k).getD ("true".data)
           let v := match envv k with | some e => e | none => v0
           if v = "false".data then false else true)
      else true) := rfl
  rw [hflag, if_pos hk]
  constructor
  · by_cases hc : cliDisables args k = true
    · rw [if_pos hc, if_pos hc]
    · rw [if_neg hc, if_neg hc]
      cases envv k with
      | some v => rfl
      | none =>
        cases fe with
        | true =>
          cases hp : parseCfgLines lines k with
          | some v => simp [hp]
          | none => simp [hp]
        | false => simp
  · intro hc
    rw [if_pos hc]

/-- A concrete config file for the `config_precedence` witness. -/
def cfgLinesExample : List Str :=
  ["# statusline config".data, "".data, "STATUSLINE_SHOW_COST=false".data]

/-- A concrete environment for the `config_precedence` witness. -/
def cfgEnvExample : Str → Option Str :=
  fun k => if k = "STATUSLINE_SHOW_COST".data then some ("1".data) else none

/-- CLI arguments with every switch off. -/
def cliArgsNone : CliArgs :=
  ⟨false, false, false, false, false, false, false, false, false, false,
   false, false, false⟩

/-- Witness for `config_precedence`: the file disables the cost key, a
non-`false` environment value re-enables it, and the CLI flag disables it
over both. -/
theorem config_precedence_witness :
    (load_config true cfgLinesExample cfgEnvExample cliArgsNone).flags
      ("STATUSLINE_SHOW_COST".data) = true ∧
    (load_config true cfgLinesExample (fun _ => none) cliArgsNone).flags
      ("STATUSLINE_SHOW_COST".data) = false ∧
    (load_config true cfgLinesExample cfgEnvExample
      { cliArgsNone with no_cost := true }).flags
      ("STATUSLINE_SHOW_COST".data) = false := by
  refine ⟨?_, ?_, ?_⟩
  · rw [(config_precedence true cfgLinesExample cfgEnvExample cliArgsNone
      ("STATUSLINE_SHOW_COST".data) (by decide)).1]
    decide
  · rw [(config_precedence true cfgLinesExample (fun _ => none) cliArgsNone
      ("STATUSLINE_SHOW_COST".data) (by decide)).1]
    decide
  · exact (config_precedence true cfgLinesExample cfgEnvExample
      { cliArgsNone with no_cost := true }
      ("STATUSLINE_SHOW_COST".data) (by decide)).2 (by decide)

/-- A filesystem operation performed by the background cache writer. -/
inductive FsOp where
  | create (path : Str)
  | append (path : Str) (chunk : List Nat)
  | rename (src dst : Str)

/-- A filesystem: path → file contents (bytes), `none` when absent. -/
def Fs := Str → Option (List Nat)

/-- Effect of one operation: `create` truncates, `append` extends,
`rename` moves atomically. -/
def applyOp (fs : Fs) : FsOp → Fs
  | .create p => fun q => if q = p then some [] else fs q
  | .append p chunk => fun q => if q = p then some ((fs p).getD [] ++ chunk) else fs q
  | .rename src dst =>
    fun q => if q = dst then fs src else if q = src then none else fs q

/-- Effect of a sequence of operations. -/
def applyOps (fs : Fs) (ops : List FsOp) : Fs := ops.foldl applyOp fs

/-- The write protocol of `_refresh_model_cache`: open the temporary path
(truncating), write the serialized document in chunks, then rename the
temporary path over the final path. -/
def writerTrace (tmp final : Str) (chunks : List (List Nat)) : List FsOp :=
  .create tmp :: (chunks.map (FsOp.append tmp) ++ [.rename tmp final])

/-- The cache path and its temporary sibling, as built by
`_refresh_model_cache`: `<cache_dir>/models-<session_id>.json` and that
plus `.tmp`. -/
def modelCachePaths (cache_dir session_id : Str) : Str × Str :=
  let cache_file := cache_dir ++ "/models-".data ++ session_id ++ ".json".data
  (cache_file ++ ".tmp".data, cache_file)

/-- Operations that only touch the temporary path leave every other path
unchanged. -/
theorem applyOps_other (tmp q : Str) (hq : q ≠ tmp) :
    ∀ (ops : List FsOp) (fs : Fs),
    (∀ op ∈ ops, op = FsOp.create tmp ∨ ∃ ch, op = FsOp.append tmp ch) →
    applyOps fs ops q = fs q := by
  intro ops
  induction ops with
  | nil => intro fs _; rfl
  | cons op rest ih =>
    intro fs h
    rcases h op (List.mem_cons_self _ _) with rfl | ⟨ch, rfl⟩ <;>
      · rw [applyOps, List.foldl_cons, ← applyOps,
          ih _ (fun o ho => h o (List.mem_cons_of_mem _ ho))]
        simp [applyOp, hq]

/-- After the create and all appends, the temporary path holds exactly the
prior content followed by every written chunk. -/
theorem tmp_content (tmp : Str) : ∀ (chunks : List (List Nat)) (fs : Fs)
    (init : List Nat), fs tmp = some init →
    applyOps fs (chunks.map (FsOp.append tmp)) tmp = some (init ++ chunks.flatten) := by
  intro chunks
  induction chunks with
  | nil =>
    intro fs init h
    rw [List.map_nil, applyOps, List.foldl_nil, h, List.flatten_nil, List.append_nil]
  | cons ch rest ih =>
    intro fs init h
    rw [List.map_cons, applyOps, List.foldl_cons, ← applyOps]
    rw [ih _ (init ++ ch) (by simp [applyOp, h])]
    simp [List.append_assoc]

/-- Claim C9: at every point of the background writer's trace, a reader of
the final cache path sees either the old content or the complete new
document, never a partial write — the complete document reaches the final
path only through the terminal rename of the temporary path. -/
theorem atomic_write_spec :
    ∀ (cache_dir session_id : Str) (chunks : List (List Nat)) (fs₀ : Fs) (k : Nat),
    applyOps fs₀ ((writerTrace (modelCachePaths cache_dir session_id).1
        (modelCachePaths cache_dir session_id).2 chunks).take k)
        (modelCachePaths cache_dir session_id).2 = fs₀ (modelCachePaths cache_dir session_id).2 ∨
    applyOps fs₀ ((writerTrace (modelCachePaths cache_dir session_id).1
        (modelCachePaths cache_dir session_id).2 chunks).take k)
        (modelCachePaths cache_dir session_id).2 = some chunks.flatten := by
  intro cache_dir session_id chunks fs₀ k
  set tmp := (modelCachePaths cache_dir session_id).1 with htmp
  set final := (modelCachePaths cache_dir session_id).2 with hfinal
  have hne : final ≠ tmp := by
    intro he
    have := congrArg List.length he
    rw [htmp, hfinal, modelCachePaths] at this
    simp at this
  have htrace : writerTrace tmp final chunks =
      (FsOp.create tmp :: chunks.map (FsOp.append tmp)) ++ [FsOp.rename tmp final] := by
    rw [writerTrace]
    simp
  by_cases hk : k ≤ (FsOp.create tmp :: chunks.map (FsOp.append tmp)).length
  · left
    rw [htrace, List.take_append_of_le_length hk]
    apply applyOps_other tmp final hne
    intro op hop
    have hmem := List.mem_of_mem_take hop
    rcases List.mem_cons.mp hmem with rfl | hmem'
    · exact Or.inl rfl
    · obtain ⟨ch, _, rfl⟩ := List.mem_map.mp hmem'
      exact Or.inr ⟨ch, rfl⟩
  · right
    push_neg at hk
    have hlen : (writerTrace tmp final chunks).length ≤ k := by
      rw [htrace]
      simp only [List.length_append, List.length_cons, List.length_map,
        List.length_singleton]
      simp at hk ⊢
      omega
    rw [List.take_of_length_le hlen, htrace, applyOps, List.foldl_append,
      ← applyOps, ← applyOps]
    have hrename : applyOps (applyOps fs₀ (FsOp.create tmp :: chunks.map (FsOp.append tmp)))
        [FsOp.rename tmp final] final =
        applyOps fs₀ (FsOp.create tmp :: chunks.map (FsOp.append tmp)) tmp := by
      rw [applyOps, List.foldl_cons, List.foldl_nil, applyOp]
      simp
    rw [hrename, applyOps, List.foldl_cons, ← applyOps]
    have hcreate : applyOp fs₀ (FsOp.create tmp) tmp = some [] := by simp [applyOp]
    rw [tmp_content tmp chunks _ [] hcreate]
    rw [List.nil_append]

/-- A parsed JSON value. -/
inductive JVal where
  | jnull
  | jbool (b : Bool)
  | jstr (s : Str)
  | jnum (q : ℚ)
  | jarr (elems : List JVal)
  | jobj (fields : List (Str × JVal))

/-- First binding of a key in an object's field list. -/
def jlookup : List (Str × JVal) → Str → Option JVal
  | [], _ => none
  | (k, v) :: rest, q => if q = k then some v else jlookup rest q

/-- Python `dict.get(k)`: `none` on non-objects and missing keys. -/
def jget : JVal → Str → Option JVal
  | .jobj fs, k => jlookup fs k
  | _, _ => none

/-- Python `data.get(k, ...)` with an empty-object default. -/
def jgetObj (j : JVal) (k : Str) : JVal := (jget j k).getD (.jobj [])

/-- Python `data.get(k, d)` for string-valued fields. -/
def jgetStr (j : JVal) (k : Str) (d : Str) : Str :=
  match jget j k with
  | some (.jstr s) => s
  | _ => d

/-- Python `float(data.get(k, d))` for numeric fields. -/
def jgetNum (j : JVal) (k : Str) (d : ℚ) : ℚ :=
  match jget j k with
  | some (.jnum q) => q
  | _ => d

/-- Python `data.get(k, [])` for list-valued fields. -/
def jgetArr (j : JVal) (k : Str) : List JVal :=
  match jget j k with
  | some (.jarr l) => l
  | _ => []

/-- Python `int(...)` on a float: truncation toward zero. -/
def ratTrunc (q : ℚ) : Int := q.num.tdiv q.den

/-- ANSI escapes used by the status line. -/
def ANSI_DIM : Str := "\x1b[2m".data
def ANSI_RST : Str := "\x1b[0m".data
def ANSI_CYAN : Str := "\x1b[36m".data
def ANSI_GREEN : Str := "\x1b[32m".data
def ANSI_YELLOW : Str := "\x1b[33m".data
def ANSI_RED : Str := "\x1b[31m".data
def ANSI_MAGENTA : Str := "\x1b[35m".data

/-- Python `sep.join(parts)`. -/
def joinSep (sep : Str) : List Str → Str
  | [] => []
  | [x] => x
  | x :: xs => x ++ sep ++ joinSep sep xs

/-- Python string repetition `s * n` (empty for `n = 0`). -/
def strRepeat (s : Str) (n : Nat) : Str := (List.replicate n s).flatten

/-- Function `trunc` from `statusline.py` at its default maximum length 20. -/
def trunc (name : Str) : Str :=
  if name.length > 20 then name.take 19 ++ ['…'] else name

/-- Python `os.path.join` for POSIX paths as used by `main`. -/
def pyPathJoin (a b : Str) : Str :=
  if ['/'].isPrefixOf b then b
  else if a = [] then b
  else if a.getLast? = some '/' then a ++ b
  else a ++ '/' :: b

/-- Python `os.path.dirname` for POSIX paths. -/
def pyDirname (p : Str) : Str :=
  let pre := (p.reverse.dropWhile (fun c => c ≠ '/')).reverse
  if pre = [] then []
  else if pre.all (fun c => c = '/') then pre
  else (pre.reverse.dropWhile (fun c => c = '/')).reverse

/-- Python `len(s.splitlines())` for newline-separated text (as produced by
`git stash list`). -/
def splitLinesCount (s : Str) : Nat :=
  if s = [] then 0
  else s.count '\n' + (if s.getLast? = some '\n' then 0 else 1)

/-- Decimal value of a digit string. -/
def digitsVal (s : Str) : Nat := s.foldl (fun a c => 10 * a + (c.toNat - 48)) 0

/-- Python `int(s)` on the well-formed integer strings produced by git. -/
def pyIntVal (s : Str) : Int :=
  let t := pyStrip s
  match t with
  | '-' :: rest => -(digitsVal rest : Int)
  | '+' :: rest => (digitsVal rest : Int)
  | _ => (digitsVal t : Int)

/-- Python's `pat in s` substring test. -/
def hasSub (pat : Str) : Str → Bool
  | [] => pat.isEmpty
  | c :: rest => pat.isPrefixOf (c :: rest) || hasSub pat rest

/-- The scanning loop of `strip_ansi` (`re.sub(r"\033\[[0-9;]*m", "", text)`);
`fuel` bounds recursion. -/
def stripAnsiScan : Nat → Str → Str
  | 0, s => s
  | _ + 1, [] => []
  | fuel + 1, c :: rest =>
    if c = '\x1b' ∧ ['['].isPrefixOf rest ∧
        ['m'].isPrefixOf ((rest.drop 1).drop
          ((rest.drop 1).takeWhile (fun d => d.isDigit || d = ';')).length) then
      stripAnsiScan fuel (((rest.drop 1).drop
        ((rest.drop 1).takeWhile (fun d => d.isDigit || d = ';')).length).drop 1)
    else c :: stripAnsiScan fuel rest

/-- Function `strip_ansi` from `statusline.py`. -/
def strip_ansi (s : Str) : Str := stripAnsiScan s.length s

/-- Every external input of one render except the stdin JSON document:
configuration sources, git query results, resolved paths, and the three
cache files (`none` = absent or unparseable, which the render treats
alike). -/
structure WorldBase where
  cfgFileExists : Bool
  cfgLines : List Str
  envv : Str → Option Str
  args : CliArgs
  gitBranch : Str
  gitToplevel : Str
  gitCommonDir : Str
  gitPorcelain : Str
  gitAhead : Str
  gitBehind : Str
  gitStash : Str
  realPath : Str → Str
  projCache : Option JVal
  allCache : Option JVal
  modelCache : Option JVal

/-- All external inputs of one render, stdin parse result included
(`none` = the input did not parse as JSON). -/
structure World where
  parsed : Option JVal
  base : WorldBase

/-- The effective configuration of a render. -/
def cfgOf (b : WorldBase) : Config :=
  load_config b.cfgFileExists b.cfgLines b.envv b.args

/-- Python `data.get` for the transcript path, defaulting to the empty string. -/
def transcriptOf (data : JVal) : Str := jgetStr data ("transcript_path".data) []

/-- The session id of the render (claim C7's function applied to the
transcript path). -/
def sessionIdOf (data : JVal) : Str := session_id_of (transcriptOf data)

/-- The model section of line 1. -/
def modelSection (b : WorldBase) (data : JVal) : Str :=
  if (cfgOf b).flags ("STATUSLINE_SHOW_MODEL".data) then
    let m := jgetStr (jgetObj data ("model".data)) ("display_name".data) ("?".data)
    if ("Claude ".data).isPrefixOf m then m.drop 7 else m
  else []

/-- Python expression `int(data.get(..).get("used_percentage", 0))` over the context window
(0 when the context section is disabled). -/
def contextPct (b : WorldBase) (data : JVal) : Int :=
  if (cfgOf b).flags ("STATUSLINE_SHOW_CONTEXT".data) then
    ratTrunc (jgetNum (jgetObj data ("context_window".data)) ("used_percentage".data) 0)
  else 0

/-- The ten-cell context bar. -/
def contextBar (b : WorldBase) (data : JVal) : Str :=
  if (cfgOf b).flags ("STATUSLINE_SHOW_CONTEXT".data) then
    let filled := min ((contextPct b data).fdiv 10) 10
    strRepeat ("▓".data) filled.toNat ++ strRepeat ("░".data) (10 - filled).toNat
  else []

/-- The context-bar color (green below the caution thresholds). -/
def contextClr (b : WorldBase) (data : JVal) : Str :=
  if (cfgOf b).flags ("STATUSLINE_SHOW_CONTEXT".data) then
    if contextPct b data ≥ 90 then ANSI_RED
    else if contextPct b data ≥ 70 then ANSI_YELLOW
    else ANSI_GREEN
  else ANSI_GREEN

/-- The context warning glyph at the ≥70% and ≥90% thresholds. -/
def contextWarn (b : WorldBase) (data : JVal) : Str :=
  if (cfgOf b).flags ("STATUSLINE_SHOW_CONTEXT".data) then
    if contextPct b data ≥ 90 then " ⚠".data
    else if contextPct b data ≥ 70 then " ⚠".data
    else []
  else []

/-- The cost section of line 1. -/
def costSection (b : WorldBase) (data : JVal) : Str :=
  if (cfgOf b).flags ("STATUSLINE_SHOW_COST".data) then
    fmt_cost (jgetNum (jgetObj data ("cost".data)) ("total_cost_usd".data) 0)
  else []

/-- The duration section of line 1 (`HhMm` from 60 minutes up, else `Mm`). -/
def durSection (b : WorldBase) (data : JVal) : Str :=
  if (cfgOf b).flags ("STATUSLINE_SHOW_DURATION".data) then
    let dur_ms := ratTrunc (jgetNum (jgetObj data ("cost".data)) ("total_duration_ms".data) 0)
    let dur_min := dur_ms.fdiv 60000
    if dur_min ≥ 60 then
      intToStr (dur_min.fdiv 60) ++ 'h' :: (intToStr (dur_min.fmod 60) ++ ['m'])
    else intToStr dur_min ++ ['m']
  else []

/-- The branch name used by the git block (empty when git is disabled). -/
def branchOf (b : WorldBase) : Str :=
  if (cfgOf b).flags ("STATUSLINE_SHOW_GIT".data) then b.gitBranch else []

/-- Worktree detection: linked-worktree flag and displayed worktree name. -/
def worktreeInfo (b : WorldBase) : Bool × Str :=
  if b.gitToplevel ≠ [] ∧ b.gitCommonDir ≠ [] then
    let resolved := b.realPath (pyPathJoin b.gitToplevel b.gitCommonDir)
    if resolved ≠ pyPathJoin b.gitToplevel (".git".data) then
      let wt_pref := pyDirname resolved ++ "/.worktrees/".data
      (true, if wt_pref.isPrefixOf b.gitToplevel then b.gitToplevel.drop wt_pref.length
             else b.gitToplevel)
    else (false, [])
  else (false, [])

/-- The branch/worktree display of line 1. -/
def gitDisplay (b : WorldBase) : Str :=
  let branch := branchOf b
  if branch = [] then []
  else
    let sb := trunc (shorten_branch branch)
    let wi := worktreeInfo b
    if wi.1 then
      let sw := trunc (shorten_branch wi.2)
      if sw = sb then "⊕ ".data ++ sb else '⊕' :: (sw ++ ' ' :: sb)
    else sb

/-- The dirty marker (non-empty porcelain status). -/
def gitDirty (b : WorldBase) : Str :=
  if branchOf b ≠ [] ∧ b.gitPorcelain ≠ [] then "●".data else []

/-- The ahead/behind/stash extras of the git block. -/
def gitExtra (b : WorldBase) : Str :=
  if branchOf b = [] then []
  else
    let ahead := if b.gitAhead = [] then "0".data else b.gitAhead
    let behind := if b.gitBehind = [] then "0".data else b.gitBehind
    let stash_count := if b.gitStash = [] then 0 else splitLinesCount b.gitStash
    joinSep [' ']
      ((if pyIntVal ahead > 0 then ['↑' :: ahead] else []) ++
       (if pyIntVal behind > 0 then ['↓' :: behind] else []) ++
       (if stash_count > 0 then [("stash:".data ++ natToStr stash_count)] else []))

/-- The added/removed line counts of line 1. -/
def linesSection (b : WorldBase) (data : JVal) : Str :=
  if (cfgOf b).flags ("STATUSLINE_SHOW_DIFF".data) then
    let added := ratTrunc (jgetNum (jgetObj data ("cost".data)) ("total_lines_added".data) 0)
    let removed := ratTrunc (jgetNum (jgetObj data ("cost".data)) ("total_lines_removed".data) 0)
    if added > 0 ∨ removed > 0 then
      ANSI_GREEN ++ '+' :: (intToStr added ++ ANSI_RST) ++ ' ' ::
        (ANSI_RED ++ '-' :: (intToStr removed ++ ANSI_RST))
    else []
  else []

/-- Per-family token totals accumulated from the model cache. -/
structure Tallies where
  opus_in : Int
  opus_out : Int
  sonnet_in : Int
  sonnet_out : Int
  haiku_in : Int
  haiku_out : Int

/-- The model-cache accumulation loop: family chosen by case-sensitive
substring match on the raw model identifier, first match winning. -/
def tallyModels (ms : List JVal) : Tallies :=
  ms.foldl
    (fun t m =>
      let name := jgetStr m ("model".data) []
      let i := ratTrunc (jgetNum m ("in".data) 0)
      let o := ratTrunc (jgetNum m ("out".data) 0)
      if hasSub ("opus".data) name then
        { t with opus_in := t.opus_in + i, opus_out := t.opus_out + o }
      else if hasSub ("sonnet".data) name then
        { t with sonnet_in := t.sonnet_in + i, sonnet_out := t.sonnet_out + o }
      else if hasSub ("haiku".data) name then
        { t with haiku_in := t.haiku_in + i, haiku_out := t.haiku_out + o }
      else t)
    ⟨0, 0, 0, 0, 0, 0⟩

/-- The per-model totals of the render (zero without a session id or a
readable model cache). -/
def talliesOf (b : WorldBase) (data : JVal) : Tallies :=
  if sessionIdOf data ≠ [] then
    match b.modelCache with
    | some mc => tallyModels (jgetArr mc ("models".data))
    | none => ⟨0, 0, 0, 0, 0, 0⟩
  else ⟨0, 0, 0, 0, 0, 0⟩

/-- The three-glyph model-mix bar chart. -/
def modelMixSection (b : WorldBase) (data : JVal) : Str :=
  if sessionIdOf data ≠ [] then
    let t := talliesOf b data
    let max_out := max t.opus_out (max t.sonnet_out t.haiku_out)
    if (cfgOf b).flags ("STATUSLINE_SHOW_MODEL_BARS".data) ∧ max_out > 0 then
      let o_bar := bar_char t.opus_out max_out
      let s_bar := bar_char t.sonnet_out max_out
      let h_bar := bar_char t.haiku_out max_out
      (if o_bar ≠ [] then ANSI_MAGENTA ++ o_bar else ANSI_DIM ++ "·".data) ++
      (if s_bar ≠ [] then ANSI_CYAN ++ s_bar else ANSI_DIM ++ "·".data) ++
      (if h_bar ≠ [] then ANSI_GREEN ++ h_bar else ANSI_DIM ++ "·".data) ++
      ANSI_RST
    else []
  else []

/-- Python expression reading `total_input_tokens` from the context window. -/
def inTok (data : JVal) : Int :=
  ratTrunc (jgetNum (jgetObj data ("context_window".data)) ("total_input_tokens".data) 0)

/-- Python expression reading `total_output_tokens` from the context window. -/
def outTok (data : JVal) : Int :=
  ratTrunc (jgetNum (jgetObj data ("context_window".data)) ("total_output_tokens".data) 0)

/-- Python expression reading `total_api_duration_ms` from the cost record. -/
def apiMs (data : JVal) : Int :=
  ratTrunc (jgetNum (jgetObj data ("cost".data)) ("total_api_duration_ms".data) 0)

/-- The throughput section of line 2: guarded division, half-even rounding,
color grading at the >30 and ≥15 thresholds. -/
def speedSection (b : WorldBase) (data : JVal) : Str :=
  if (cfgOf b).flags ("STATUSLINE_SHOW_SPEED".data) then
    if apiMs data > 0 ∧ outTok data > 0 then
      let speed_int := halfEvenRoundInt (outTok data * 1000) (apiMs data)
      (if speed_int > 30 then ANSI_GREEN
       else if speed_int ≥ 15 then ANSI_YELLOW
       else ANSI_RED) ++ intToStr speed_int ++ " tok/s".data ++ ANSI_RST
    else []
  else []

/-- Python expression reading `project_dir` from the workspace record. -/
def projDirOf (data : JVal) : Str :=
  jgetStr (jgetObj data ("workspace".data)) ("project_dir".data) []

/-- The per-project cumulative section of line 2. -/
def cumProjSection (b : WorldBase) (data : JVal) : Str :=
  if (cfgOf b).flags ("STATUSLINE_SHOW_CUMULATIVE".data) ∧ projDirOf data ≠ [] then
    match b.projCache with
    | some pc =>
      let p1 := jgetNum (jgetObj pc ("d1".data)) ("cost".data) 0
      let p7 := jgetNum (jgetObj pc ("d7".data)) ("cost".data) 0
      let p30 := jgetNum (jgetObj pc ("d30".data)) ("cost".data) 0
      if p1 > 0 ∨ p7 > 0 ∨ p30 > 0 then
        "⌂ ".data ++ fmt_cost p1 ++ '/' :: (fmt_cost p7 ++ '/' :: fmt_cost p30)
      else []
    | none => []
  else []

/-- The global cumulative section of line 2. -/
def cumAllSection (b : WorldBase) : Str :=
  if (cfgOf b).flags ("STATUSLINE_SHOW_CUMULATIVE".data) then
    match b.allCache with
    | some ac =>
      let a1 := jgetNum (jgetObj ac ("d1".data)) ("cost".data) 0
      let a7 := jgetNum (jgetObj ac ("d7".data)) ("cost".data) 0
      let a30 := jgetNum (jgetObj ac ("d30".data)) ("cost".data) 0
      if a1 > 0 ∨ a7 > 0 ∨ a30 > 0 then
        "Σ ".data ++ fmt_cost a1 ++ '/' :: (fmt_cost a7 ++ '/' :: fmt_cost a30)
      else []
    | none => []
  else []

/-- The per-family token elements of line 2. -/
def tokParts (b : WorldBase) (data : JVal) : List Str :=
  (if (talliesOf b data).opus_out > 0 ∨ (talliesOf b data).opus_in > 0 then
    [ANSI_MAGENTA ++ 'O' :: (ANSI_RST ++ ':' ::
      (fmt_k (talliesOf b data).opus_in ++ '/' :: fmt_k (talliesOf b data).opus_out))]
   else []) ++
  (if (talliesOf b data).sonnet_out > 0 ∨ (talliesOf b data).sonnet_in > 0 then
    [ANSI_CYAN ++ 'S' :: (ANSI_RST ++ ':' ::
      (fmt_k (talliesOf b data).sonnet_in ++ '/' :: fmt_k (talliesOf b data).sonnet_out))]
   else []) ++
  (if (talliesOf b data).haiku_out > 0 ∨ (talliesOf b data).haiku_in > 0 then
    [ANSI_GREEN ++ 'H' :: (ANSI_RST ++ ':' ::
      (fmt_k (talliesOf b data).haiku_in ++ '/' :: fmt_k (talliesOf b data).haiku_out))]
   else [])

/-- The token-count element of line 2: per-family break-down, falling back
to the aggregate in/out display. -/
def tokensSection (b : WorldBase) (data : JVal) : Str :=
  if tokParts b data ≠ [] then joinSep [' '] (tokParts b data)
  else ANSI_DIM ++ "in:".data ++ ANSI_RST ++ fmt_k (inTok data) ++ ' ' ::
    (ANSI_DIM ++ "out:".data ++ ANSI_RST ++ fmt_k (outTok data))

/-- The separator between sections: space, dim vertical bar, space. -/
def sepStr : Str := ' ' :: (ANSI_DIM ++ "│".data ++ ANSI_RST ++ [' '])

/-- The non-empty sections of line 1, in order. -/
def line1Parts (b : WorldBase) (data : JVal) : List Str :=
  (if modelSection b data ≠ [] then
    [ANSI_CYAN ++ modelSection b data ++ ANSI_RST ++
      (if modelMixSection b data ≠ [] then ' ' :: modelMixSection b data else [])]
   else if modelMixSection b data ≠ [] then [modelMixSection b data] else []) ++
  (if contextBar b data ≠ [] then
    [contextClr b data ++ contextBar b data ++ ' ' ::
      (intToStr (contextPct b data) ++ '%' :: (contextWarn b data ++ ANSI_RST))]
   else []) ++
  (if costSection b data ≠ [] then [costSection b data] else []) ++
  (if durSection b data ≠ [] then [durSection b data] else []) ++
  (if gitDisplay b ≠ [] then
    [ANSI_MAGENTA ++ gitDisplay b ++ ANSI_RST ++
      (if gitDirty b ≠ [] then ' ' :: (ANSI_YELLOW ++ gitDirty b ++ ANSI_RST) else []) ++
      (if gitExtra b ≠ [] then ' ' :: (ANSI_CYAN ++ gitExtra b ++ ANSI_RST) else [])]
   else []) ++
  (if linesSection b data ≠ [] then [linesSection b data] else [])

/-- The non-empty sections of line 2, in order. -/
def line2Parts (b : WorldBase) (data : JVal) : List Str :=
  (if (cfgOf b).flags ("STATUSLINE_SHOW_TOKENS".data) then [tokensSection b data] else []) ++
  (if speedSection b data ≠ [] then [speedSection b data] else []) ++
  (if cumProjSection b data ≠ [] then [cumProjSection b data] else []) ++
  (if cumAllSection b ≠ [] then [cumAllSection b] else [])

/-- Line 1 of the rendered output. -/
def line1 (b : WorldBase) (data : JVal) : Str := joinSep sepStr (line1Parts b data)

/-- Line 2 of the rendered output (empty when suppressed as a unit). -/
def line2 (b : WorldBase) (data : JVal) : Str :=
  if (cfgOf b).flags ("STATUSLINE_LINE2".data) then joinSep sepStr (line2Parts b data)
  else []

/-- The full render given the parsed (or defaulted) JSON document:
color stripping when color is disabled, then the two-line output contract
of `main`'s final write. -/
def renderCore (b : WorldBase) (data : JVal) : Str :=
  let l1 := if (cfgOf b).no_color then strip_ansi (line1 b data) else line1 b data
  let l2 := if (cfgOf b).no_color then strip_ansi (line2 b data) else line2 b data
  if l2 ≠ [] then l1 ++ '\n' :: (l2 ++ ['\n']) else l1 ++ '\n' :: ['\n']

/-- One full render: a failed stdin parse degrades to the empty document. -/
def mainRender (w : World) : Str :=
  renderCore w.base (w.parsed.getD (JVal.jobj []))

/-- No-newline closure: concatenation. -/
theorem nnl_append {a b : Str} (ha : '\n' ∉ a) (hb : '\n' ∉ b) : '\n' ∉ a ++ b := by
  intro h
  rcases List.mem_append.mp h with h | h
  exacts [ha h, hb h]

/-- No-newline closure: cons. -/
theorem nnl_cons {c : Char} {s : Str} (hc : ('\n' : Char) ≠ c) (hs : '\n' ∉ s) :
    '\n' ∉ c :: s := by
  intro h
  rcases List.mem_cons.mp h with h | h
  exacts [hc h, hs h]

/-- No-newline closure: separator join. -/
theorem nnl_joinSep (sep : Str) (hsep : '\n' ∉ sep) :
    ∀ xs : List Str, (∀ x ∈ xs, '\n' ∉ x) → '\n' ∉ joinSep sep xs := by
  intro xs
  induction xs with
  | nil => intro _; simp [joinSep]
  | cons x xs ih =>
    intro h
    cases xs with
    | nil => exact h x (by simp)
    | cons y ys =>
      rw [show joinSep sep (x :: y :: ys) = x ++ sep ++ joinSep sep (y :: ys) from rfl]
      exact nnl_append (nnl_append (h x (by simp)) hsep)
        (ih fun z hz => h z (List.mem_cons_of_mem _ hz))

/-- No-newline closure: `take` and `drop`. -/
theorem nnl_take (n : Nat) {s : Str} (h : '\n' ∉ s) : '\n' ∉ s.take n :=
  fun hm => h (List.mem_of_mem_take hm)

theorem nnl_drop (n : Nat) {s : Str} (h : '\n' ∉ s) : '\n' ∉ s.drop n :=
  fun hm => h (List.mem_of_mem_drop hm)

/-- Digit characters are never newlines. -/
theorem digitCh_ne_nl (n : Nat) : digitCh n ≠ '\n' := by
  unfold digitCh
  split <;> decide

/-- Digits from `natDigits` never include a newline. -/
theorem nnl_natDigits : ∀ fuel n, '\n' ∉ natDigits fuel n := by
  intro fuel
  induction fuel with
  | zero => intro n; simp [natDigits]
  | succ f ih =>
    intro n
    rw [natDigits]
    split
    · intro h
      simp only [List.mem_singleton] at h
      exact digitCh_ne_nl n h.symm
    · intro h
      rcases List.mem_append.mp h with h | h
      · exact ih _ h
      · simp only [List.mem_singleton] at h
        exact digitCh_ne_nl _ h.symm

theorem nnl_natToStr (n : Nat) : '\n' ∉ natToStr n := nnl_natDigits _ _

theorem nnl_intToStr (n : Int) : '\n' ∉ intToStr n := by
  unfold intToStr
  refine nnl_append ?_ (nnl_natToStr _)
  split
  · decide
  · decide

/-- Output of `fmtFixed` never includes a newline. -/
theorem nnl_fmtFixed (nd : Nat) (q : ℚ) : '\n' ∉ fmtFixed nd q := by
  have hsign : '\n' ∉ (if q.num < 0 then ['-'] else ([] : Str)) := by
    split <;> decide
  simp only [fmtFixed]
  split
  · exact nnl_append hsign (nnl_natToStr _)
  · refine nnl_append (nnl_append hsign (nnl_natToStr _)) ?_
    refine nnl_cons (by decide) (nnl_append ?_ (nnl_natDigits _ _))
    intro h
    have := List.eq_of_mem_replicate h
    exact absurd this (by decide)

theorem nnl_fmt_cost (c : ℚ) : '\n' ∉ fmt_cost c := by
  unfold fmt_cost
  split_ifs <;>
    first
      | exact nnl_cons (by decide) (nnl_append (nnl_fmtFixed _ _) (by decide))
      | exact nnl_cons (by decide) (nnl_fmtFixed _ _)

theorem nnl_fmt_k (n : Int) : '\n' ∉ fmt_k n := by
  unfold fmt_k
  split_ifs <;>
    first
      | exact nnl_append (nnl_fmtFixed _ _) (by decide)
      | exact nnl_intToStr _

theorem nnl_trunc {s : Str} (h : '\n' ∉ s) : '\n' ∉ trunc s := by
  unfold trunc
  split
  · exact nnl_append (nnl_take _ h) (by decide)
  · exact h

theorem nnl_shorten_branch {s : Str} (h : '\n' ∉ s) : '\n' ∉ shorten_branch s := by
  have hgen : ∀ L : List (Str × Char), (∀ pi ∈ L, pi.2 ≠ '\n') →
      '\n' ∉ shortenScan L s := by
    intro L
    induction L with
    | nil => intro _; exact h
    | cons hd tl ih =>
      intro hL
      obtain ⟨p, icon⟩ := hd
      rw [shortenScan]
      split
      · exact nnl_cons (fun he => hL (p, icon) (by simp) he.symm) (nnl_drop _ h)
      · exact ih fun pi hpi => hL pi (List.mem_cons_of_mem _ hpi)
  exact hgen BRANCH_PREFIX_TABLE (by decide)

/-- The bar glyphs are newline-free. -/
theorem nnl_BARS_getD : ∀ i : Nat, '\n' ∉ BARS.getD i [] := by
  intro i
  match i with
  | 0 | 1 | 2 | 3 | 4 | 5 | 6 | 7 => decide
  | n + 8 => show ('\n' : Char) ∉ ([] : Str); decide

theorem nnl_bar_char (v m : Int) : '\n' ∉ bar_char v m := by
  unfold bar_char
  split
  · decide
  · exact nnl_BARS_getD _

/-- Stripping ANSI escapes only removes characters. -/
theorem stripAnsiScan_subset : ∀ (fuel : Nat) (s : Str) (c : Char),
    c ∈ stripAnsiScan fuel s → c ∈ s := by
  intro fuel
  induction fuel with
  | zero => intro s c h; exact h
  | succ f ih =>
    intro s c h
    match s with
    | [] => simp [stripAnsiScan] at h
    | x :: rest =>
      rw [stripAnsiScan] at h
      split at h
      · have h1 := ih _ c h
        have h2 := List.mem_of_mem_drop h1
        have h3 := List.mem_of_mem_drop h2
        have h4 := List.mem_of_mem_drop h3
        exact List.mem_cons_of_mem _ h4
      · rcases List.mem_cons.mp h with rfl | h1
        · exact List.mem_cons_self _ _
        · exact List.mem_cons_of_mem _ (ih _ c h1)

theorem nnl_strip_ansi {s : Str} (h : '\n' ∉ s) : '\n' ∉ strip_ansi s :=
  fun hm => h (stripAnsiScan_subset _ _ _ hm)

/-- Membership in a conditional singleton. -/
theorem mem_ite_singleton {α : Type} {c : Prop} [Decidable c] {e x : α}
    (h : x ∈ (if c then [e] else ([] : List α))) : x = e := by
  split at h
  · simpa using h
  · simp at h

theorem nnl_strRepeat {s : Str} (h : '\n' ∉ s) (n : Nat) : '\n' ∉ strRepeat s n := by
  intro hm
  obtain ⟨l, hl, hml⟩ := List.mem_flatten.mp hm
  exact h (List.eq_of_mem_replicate hl ▸ hml)

theorem nnl_modelSection (b : WorldBase) : '\n' ∉ modelSection b (JVal.jobj []) := by
  unfold modelSection
  split
  · decide
  · decide

/-- Without a transcript there is no session id, hence no model mix. -/
theorem modelMix_empty (b : WorldBase) : modelMixSection b (JVal.jobj []) = [] := rfl

theorem contextPct_empty (b : WorldBase) : contextPct b (JVal.jobj []) = 0 := by
  unfold contextPct
  split <;> rfl

theorem nnl_contextBar (b : WorldBase) (data : JVal) : '\n' ∉ contextBar b data := by
  simp only [contextBar]
  split
  · exact nnl_append (nnl_strRepeat (by decide) _) (nnl_strRepeat (by decide) _)
  · decide

theorem nnl_contextClr (b : WorldBase) (data : JVal) : '\n' ∉ contextClr b data := by
  simp only [contextClr]
  split_ifs <;> decide

theorem nnl_contextWarn (b : WorldBase) (data : JVal) : '\n' ∉ contextWarn b data := by
  simp only [contextWarn]
  split_ifs <;> decide

theorem nnl_costSection (b : WorldBase) (data : JVal) : '\n' ∉ costSection b data := by
  simp only [costSection]
  split
  · exact nnl_fmt_cost _
  · decide

theorem nnl_durSection (b : WorldBase) (data : JVal) : '\n' ∉ durSection b data := by
  simp only [durSection]
  split
  · split
    · exact nnl_append (nnl_intToStr _)
        (nnl_cons (by decide) (nnl_append (nnl_intToStr _) (by decide)))
    · exact nnl_append (nnl_intToStr _) (by decide)
  · decide

theorem nnl_branchOf (b : WorldBase) (hb : '\n' ∉ b.gitBranch) : '\n' ∉ branchOf b := by
  unfold branchOf
  split
  · exact hb
  · decide

theorem nnl_wtName (b : WorldBase) (ht : '\n' ∉ b.gitToplevel) :
    '\n' ∉ (worktreeInfo b).2 := by
  simp only [worktreeInfo]
  split
  · split
    · show '\n' ∉ (if _ then b.gitToplevel.drop _ else b.gitToplevel)
      split
      · exact nnl_drop _ ht
      · exact ht
    · show ('\n' : Char) ∉ ([] : Str)
      decide
  · show ('\n' : Char) ∉ ([] : Str)
    decide

theorem nnl_gitDisplay (b : WorldBase) (hb : '\n' ∉ b.gitBranch)
    (ht : '\n' ∉ b.gitToplevel) : '\n' ∉ gitDisplay b := by
  have hbr := nnl_branchOf b hb
  have hsb : '\n' ∉ trunc (shorten_branch (branchOf b)) :=
    nnl_trunc (nnl_shorten_branch hbr)
  have hsw : '\n' ∉ trunc (shorten_branch (worktreeInfo b).2) :=
    nnl_trunc (nnl_shorten_branch (nnl_wtName b ht))
  simp only [gitDisplay]
  split
  · decide
  · split
    · split
      · exact nnl_append (by decide) hsb
      · exact nnl_cons (by decide) (nnl_append hsw (nnl_cons (by decide) hsb))
    · exact hsb

theorem nnl_gitDirty (b : WorldBase) : '\n' ∉ gitDirty b := by
  unfold gitDirty
  split <;> decide

theorem nnl_gitExtra (b : WorldBase) (ha : '\n' ∉ b.gitAhead)
    (hbe : '\n' ∉ b.gitBehind) : '\n' ∉ gitExtra b := by
  have hAh : '\n' ∉ (if b.gitAhead = [] then "0".data else b.gitAhead) := by
    split
    · decide
    · exact ha
  have hBe : '\n' ∉ (if b.gitBehind = [] then "0".data else b.gitBehind) := by
    split
    · decide
    · exact hbe
  simp only [gitExtra]
  split
  · decide
  · refine nnl_joinSep _ (by decide) _ ?_
    intro x hx
    rcases List.mem_append.mp hx with hx | hx
    · rcases List.mem_append.mp hx with hx | hx
      · rw [mem_ite_singleton hx]
        exact nnl_cons (by decide) hAh
      · rw [mem_ite_singleton hx]
        exact nnl_cons (by decide) hBe
    · rw [mem_ite_singleton hx]
      exact nnl_append (by decide) (nnl_natToStr _)

theorem nnl_linesSection (b : WorldBase) (data : JVal) : '\n' ∉ linesSection b data := by
  simp only [linesSection]
  split
  · split
    · refine nnl_append (nnl_append (by decide) ?_) ?_
      · exact nnl_cons (by decide) (nnl_append (nnl_intToStr _) (by decide))
      · exact nnl_cons (by decide)
          (nnl_append (by decide) (nnl_cons (by decide) (nnl_append (nnl_intToStr _) (by decide))))
    · decide
  · decide

theorem nnl_speedSection (b : WorldBase) (data : JVal) : '\n' ∉ speedSection b data := by
  simp only [speedSection]
  split
  · split
    · refine nnl_append (nnl_append (nnl_append ?_ (nnl_intToStr _)) (by decide)) (by decide)
      split_ifs <;> decide
    · decide
  · decide

theorem cumProj_empty (b : WorldBase) : cumProjSection b (JVal.jobj []) = [] := by
  unfold cumProjSection
  exact if_neg fun hand => hand.2 rfl

theorem nnl_cumAllSection (b : WorldBase) : '\n' ∉ cumAllSection b := by
  simp only [cumAllSection]
  split
  · split
    · split
      · refine nnl_append (nnl_append (by decide) (nnl_fmt_cost _)) ?_
        exact nnl_cons (by decide) (nnl_append (nnl_fmt_cost _) (nnl_cons (by decide) (nnl_fmt_cost _)))
      · decide
    · decide
  · decide

theorem nnl_tokParts (b : WorldBase) (data : JVal) :
    ∀ x ∈ tokParts b data, '\n' ∉ x := by
  intro x hx
  simp only [tokParts] at hx
  rcases List.mem_append.mp hx with hx | hx
  · rcases List.mem_append.mp hx with hx | hx
    · rw [mem_ite_singleton hx]
      exact nnl_append (by decide) (nnl_cons (by decide) (nnl_append (by decide)
        (nnl_cons (by decide) (nnl_append (nnl_fmt_k _) (nnl_cons (by decide) (nnl_fmt_k _))))))
    · rw [mem_ite_singleton hx]
      exact nnl_append (by decide) (nnl_cons (by decide) (nnl_append (by decide)
        (nnl_cons (by decide) (nnl_append (nnl_fmt_k _) (nnl_cons (by decide) (nnl_fmt_k _))))))
  · rw [mem_ite_singleton hx]
    exact nnl_append (by decide) (nnl_cons (by decide) (nnl_append (by decide)
      (nnl_cons (by decide) (nnl_append (nnl_fmt_k _) (nnl_cons (by decide) (nnl_fmt_k _))))))

theorem nnl_tokensSection (b : WorldBase) (data : JVal) : '\n' ∉ tokensSection b data := by
  unfold tokensSection
  split
  · exact nnl_joinSep _ (by decide) _ (nnl_tokParts b data)
  · refine nnl_append (nnl_append (nnl_append (nnl_append (by decide) (by decide))
      (by decide)) (nnl_fmt_k _)) (nnl_cons (by decide) ?_)
    exact nnl_append (nnl_append (nnl_append (by decide) (by decide)) (by decide)) (nnl_fmt_k _)

theorem nnl_line1_parts (b : WorldBase)
    (hb : '\n' ∉ b.gitBranch) (ht : '\n' ∉ b.gitToplevel)
    (ha : '\n' ∉ b.gitAhead) (hbe : '\n' ∉ b.gitBehind) :
    ∀ x ∈ line1Parts b (JVal.jobj []), '\n' ∉ x := by
  intro x hx
  simp only [line1Parts] at hx
  rcases List.mem_append.mp hx with hx | hx
  · rcases List.mem_append.mp hx with hx | hx
    · rcases List.mem_append.mp hx with hx | hx
      · rcases List.mem_append.mp hx with hx | hx
        · rcases List.mem_append.mp hx with hx | hx
          · revert hx
            split
            · intro hx
              simp only [List.mem_singleton] at hx
              subst hx
              refine nnl_append (nnl_append (nnl_append (by decide)
                (nnl_modelSection b)) (by decide)) ?_
              rw [modelMix_empty b]
              decide
            · split
              · intro hx
                simp only [List.mem_singleton] at hx
                subst hx
                rw [modelMix_empty b]
                decide
              · intro hx
                simp at hx
          · rw [mem_ite_singleton hx]
            refine nnl_append (nnl_append (nnl_contextClr b _) (nnl_contextBar b _))
              (nnl_cons (by decide) ?_)
            exact nnl_append (nnl_intToStr _)
              (nnl_cons (by decide) (nnl_append (nnl_contextWarn b _) (by decide)))
        · rw [mem_ite_singleton hx]
          exact nnl_costSection b _
      · rw [mem_ite_singleton hx]
        exact nnl_durSection b _
    · rw [mem_ite_singleton hx]
      refine nnl_append (nnl_append (nnl_append (nnl_append (by decide)
        (nnl_gitDisplay b hb ht)) (by decide)) ?_) ?_
      · split
        · exact nnl_cons (by decide)
            (nnl_append (nnl_append (by decide) (nnl_gitDirty b)) (by decide))
        · decide
      · split
        · exact nnl_cons (by decide)
            (nnl_append (nnl_append (by decide) (nnl_gitExtra b ha hbe)) (by decide))
        · decide
  · rw [mem_ite_singleton hx]
    exact nnl_linesSection b _

theorem nnl_line2_parts (b : WorldBase) :
    ∀ x ∈ line2Parts b (JVal.jobj []), '\n' ∉ x := by
  intro x hx
  simp only [line2Parts] at hx
  rcases List.mem_append.mp hx with hx | hx
  · rcases List.mem_append.mp hx with hx | hx
    · rcases List.mem_append.mp hx with hx | hx
      · rw [mem_ite_singleton hx]
        exact nnl_tokensSection b _
      · rw [mem_ite_singleton hx]
        exact nnl_speedSection b _
    · rw [mem_ite_singleton hx, cumProj_empty b]
      decide
  · rw [mem_ite_singleton hx]
    exact nnl_cumAllSection b

theorem nnl_line1 (b : WorldBase)
    (hb : '\n' ∉ b.gitBranch) (ht : '\n' ∉ b.gitToplevel)
    (ha : '\n' ∉ b.gitAhead) (hbe : '\n' ∉ b.gitBehind) :
    '\n' ∉ line1 b (JVal.jobj []) :=
  nnl_joinSep _ (by decide) _ (nnl_line1_parts b hb ht ha hbe)

theorem nnl_line2 (b : WorldBase) : '\n' ∉ line2 b (JVal.jobj []) := by
  unfold line2
  split
  · exact nnl_joinSep _ (by decide) _ (nnl_line2_parts b)
  · decide

/-- Claim C8: a standard input that does not parse as JSON renders exactly
as the empty JSON document would, and the output is still two
newline-terminated lines, the second possibly blank. -/
theorem render_malformed_input (w : World) (hp : w.parsed = none)
    (hb : '\n' ∉ w.base.gitBranch) (ht : '\n' ∉ w.base.gitToplevel)
    (ha : '\n' ∉ w.base.gitAhead) (hbe : '\n' ∉ w.base.gitBehind) :
    mainRender w = mainRender { w with parsed := some (JVal.jobj []) } ∧
    ∃ a b : Str, mainRender w = a ++ '\n' :: (b ++ ['\n']) ∧ '\n' ∉ a ∧ '\n' ∉ b := by
  have hmain : mainRender w = renderCore w.base (JVal.jobj []) := by
    rw [mainRender, hp]
    rfl
  refine ⟨by rw [hmain]; rfl, ?_⟩
  rw [hmain]
  have h1 : '\n' ∉ (if (cfgOf w.base).no_color then
      strip_ansi (line1 w.base (JVal.jobj [])) else line1 w.base (JVal.jobj [])) := by
    split
    · exact nnl_strip_ansi (nnl_line1 w.base hb ht ha hbe)
    · exact nnl_line1 w.base hb ht ha hbe
  have h2 : '\n' ∉ (if (cfgOf w.base).no_color then
      strip_ansi (line2 w.base (JVal.jobj [])) else line2 w.base (JVal.jobj [])) := by
    split
    · exact nnl_strip_ansi (nnl_line2 w.base)
    · exact nnl_line2 w.base
  simp only [renderCore]
  set u := (if (cfgOf w.base).no_color then strip_ansi (line1 w.base (JVal.jobj []))
    else line1 w.base (JVal.jobj [])) with hu
  set v := (if (cfgOf w.base).no_color then strip_ansi (line2 w.base (JVal.jobj []))
    else line2 w.base (JVal.jobj [])) with hv
  split
  · exact ⟨u, v, rfl, h1, h2⟩
  · exact ⟨u, [], rfl, h1, by decide⟩

/-- A fully degraded environment: no git, no caches, no configuration. -/
def worldBaseEmpty : WorldBase :=
  { cfgFileExists := false, cfgLines := [], envv := fun _ => none,
    args := cliArgsNone, gitBranch := [], gitToplevel := [], gitCommonDir := [],
    gitPorcelain := [], gitAhead := [], gitBehind := [], gitStash := [],
    realPath := id, projCache := none, allCache := none, modelCache := none }

/-- Witness for `render_malformed_input` at the all-empty environment. -/
theorem render_malformed_input_witness :
    mainRender ⟨none, worldBaseEmpty⟩ =
      mainRender { parsed := some (JVal.jobj []), base := worldBaseEmpty } ∧
    ∃ a b : Str, mainRender ⟨none, worldBaseEmpty⟩ = a ++ '\n' :: (b ++ ['\n']) ∧
      '\n' ∉ a ∧ '\n' ∉ b :=
  render_malformed_input ⟨none, worldBaseEmpty⟩ rfl (by decide) (by decide)
    (by decide) (by decide)

/-- The speed section is empty unless both the API duration and the output
token count are positive. -/
theorem speedSection_empty (b : WorldBase) (data : JVal)
    (h : ¬(apiMs data > 0 ∧ outTok data > 0)) : speedSection b data = [] := by
  by_cases hf : (cfgOf b).flags ("STATUSLINE_SHOW_SPEED".data) = true
  · unfold speedSection
    rw [if_pos hf, if_neg h]
  · unfold speedSection
    rw [if_neg hf]

/-- Claim C10: the throughput division is guarded — whenever the API
duration or the output-token count is non-positive the speed section is
empty, and a non-empty speed section forces a positive divisor. -/
theorem speed_guard (b : WorldBase) (data : JVal) :
    (apiMs data ≤ 0 ∨ outTok data ≤ 0 → speedSection b data = []) ∧
    (speedSection b data ≠ [] → 0 < apiMs data ∧ 0 < outTok data) := by
  constructor
  · intro h
    apply speedSection_empty
    intro hand
    rcases h with h | h
    · exact absurd hand.1 (by omega)
    · exact absurd hand.2 (by omega)
  · intro hne
    by_contra hc
    exact hne (speedSection_empty b data fun hand => hc ⟨hand.1, hand.2⟩)

/-- Witness for `speed_guard` at a concrete zero-duration input. -/
theorem speed_guard_witness : speedSection worldBaseEmpty (JVal.jobj []) = [] :=
  (speed_guard worldBaseEmpty (JVal.jobj [])).1 (Or.inl (by decide))
